import Mathlib

/-!
Verification development for the LocalQAterm broker: a shallow embedding of
the model-server dispatcher, the wire protocol handling, the response
cleaner and the per-session token accounting, together with theorems
settling the specification claims against it.

Strings are modelled as `List Char`; JavaScript string operations
(`includes`, `replace` with the concrete regular expressions of the source,
`split`, `trim`, `join`) are embedded as executable functions on character
lists.
-/

namespace LocalQAterm

/-- Convert a Lean string literal into the character-list representation. -/
def chars (s : String) : List Char := s.toList

/-- `leadsWith pat s` is true when `pat` is an initial run of `s`
(JS `s.startsWith(pat)`). -/
def leadsWith : List Char → List Char → Bool
  | [], _ => true
  | _ :: _, [] => false
  | p :: ps, c :: rest => p == c && leadsWith ps rest

/-- `occursIn pat s` is true when `pat` occurs contiguously somewhere in `s`
(JS `s.includes(pat)`). -/
def occursIn (a : List Char) : List Char → Bool
  | [] => leadsWith a []
  | c :: rest => leadsWith a (c :: rest) || occursIn a rest

/-- Whitespace characters recognised by JS `String.prototype.trim`
(the ASCII ones; the sources only ever produce ASCII). -/
def isWsChar (c : Char) : Bool :=
  c == ' ' || c == '\t' || c == '\n' || c == '\r' || c == '\x0b' || c == '\x0c'

/-- JS `s.trim()`. -/
def trimL (s : List Char) : List Char :=
  ((s.dropWhile isWsChar).reverse.dropWhile isWsChar).reverse

/-- JS `s.split(sep)` for a single-character separator. -/
def splitOnChar (sep : Char) : List Char → List (List Char)
  | [] => [[]]
  | c :: rest =>
    if c == sep then [] :: splitOnChar sep rest
    else
      match splitOnChar sep rest with
      | l :: ls => (c :: l) :: ls
      | [] => [[c]]

/-- JS `lines.join('\n')`. -/
def joinLines : List (List Char) → List Char
  | [] => []
  | [l] => l
  | l :: ls => l ++ '\n' :: joinLines ls

/-- Earliest index at which `b` occurs in `s`; when `dotAll` is false the
scan stops at a newline, mirroring the `.` of a regular expression without
the `s` flag (the lazy filler `.*?` may not cross lines). -/
def findStopIdx (b : List Char) (dotAll : Bool) : List Char → Option Nat
  | [] => none
  | c :: rest =>
    if leadsWith b (c :: rest) then some 0
    else if !dotAll && c == '\n' then none
    else (findStopIdx b dotAll rest).map (· + 1)

/-- Fuel-driven core of JS `s.replace(/A.*?B/g, '')` (with the `s` flag when
`dotAll` is true): repeatedly erase the leftmost, shortest run starting with
`a` and ending with `b`, resuming the scan after the erased region. The
fuel is always instantiated with more than the input length, which the scan
never exhausts. -/
def removeLazyAllF : Nat → List Char → List Char → Bool → List Char → List Char
  | 0, _, _, _, s => s
  | _ + 1, _, _, _, [] => []
  | fuel + 1, a, b, dotAll, c :: rest =>
    if leadsWith a (c :: rest) then
      match findStopIdx b dotAll (List.drop a.length (c :: rest)) with
      | some j =>
        removeLazyAllF fuel a b dotAll
          (List.drop (j + b.length) (List.drop a.length (c :: rest)))
      | none => c :: removeLazyAllF fuel a b dotAll rest
    else c :: removeLazyAllF fuel a b dotAll rest

/-- JS `s.replace(/A.*?B/g(s), '')`. -/
def removeLazyAll (a b : List Char) (dotAll : Bool) (s : List Char) : List Char :=
  removeLazyAllF (s.length + 1) a b dotAll s

/-- Fuel-driven core of JS `s.replace(/A/g, '')` for a fixed string `A`:
erase every occurrence, resuming after each erased region. -/
def removeAllSubF : Nat → List Char → List Char → List Char
  | 0, _, s => s
  | _ + 1, _, [] => []
  | fuel + 1, a, c :: rest =>
    if leadsWith a (c :: rest) then
      removeAllSubF fuel a (List.drop (a.length - 1) rest)
    else c :: removeAllSubF fuel a rest

/-- JS `s.replace(/A/g, '')` for a fixed string `A`. -/
def removeAllSub (a s : List Char) : List Char :=
  removeAllSubF (s.length + 1) a s

/-- JS `s.replace(/^A.*?B/gs, '')`: anchored at the start of the string, so
at most one (leftmost-shortest) region is erased. -/
def removeAnchoredLazy (a b : List Char) (s : List Char) : List Char :=
  if leadsWith a s then
    match findStopIdx b true (List.drop a.length s) with
    | some j => List.drop (j + b.length) (List.drop a.length s)
    | none => s
  else s

/-- Token estimate used throughout the sources:
`Math.ceil(text.length / 4)`. -/
def estimateTokens (text : List Char) : Nat := (text.length + 3) / 4

/-- Decimal digits of a natural number, used to render numeric ids. -/
def natChars (n : Nat) : List Char := Nat.toDigits 10 n

end LocalQAterm

namespace LocalQAterm

/-! ### JSON values and parsing

The wire protocol serialises one JSON object per line. `jsonParse` embeds
the behaviour of `JSON.parse` on the protocol's records: a full-input parse
of one JSON value (objects, arrays, strings with the standard one-character
escapes and `\uXXXX` escapes, numbers, booleans, null), with surrounding
JSON whitespace (space, tab, newline, carriage return) permitted and
nothing else. As in `JSON.parse`, an unescaped control character inside a
string literal is a parse error, and an unknown escape is a parse error. -/

/-- A JSON value. Numbers keep their raw token text (the sources never do
arithmetic on decoded numbers, they only store and echo them). For objects,
later duplicate keys override earlier ones at lookup time, as in JS. -/
inductive Json where
  | str : List Char → Json
  | num : List Char → Json
  | bool : Bool → Json
  | null : Json
  | arr : List Json → Json
  | obj : List (List Char × Json) → Json

def trueStr : String := "true"
def falseStr : String := "false"
def nullStr : String := "null"

def trueLit : List Char := chars trueStr
def falseLit : List Char := chars falseStr
def nullLit : List Char := chars nullStr

/-- Skip JSON whitespace. -/
def skipWs : List Char → List Char
  | [] => []
  | c :: rest =>
    if c == ' ' || c == '\t' || c == '\n' || c == '\r' then skipWs rest
    else c :: rest

/-- Decode a one-character JSON string escape. -/
def unescape (e : Char) : Option Char :=
  if e == '"' then some '"'
  else if e == '\\' then some '\\'
  else if e == '/' then some '/'
  else if e == 'b' then some (Char.ofNat 8)
  else if e == 'f' then some (Char.ofNat 12)
  else if e == 'n' then some '\n'
  else if e == 'r' then some '\r'
  else if e == 't' then some '\t'
  else none

/-- Numeric value of one hexadecimal digit of a `\uXXXX` escape, either
letter case accepted, keyed on the character's code (48–57 are the
digits, 97–102 lower-case a–f, 65–70 upper-case A–F). -/
def hexDigitVal (c : Char) : Option Nat :=
  let n := c.toNat
  if 48 ≤ n && n ≤ 57 then some (n - 48)
  else if 97 ≤ n && n ≤ 102 then some (n - 87)
  else if 65 ≤ n && n ≤ 70 then some (n - 55)
  else none

/-- Parse the body of a JSON string (cursor after the opening quote),
returning the decoded content and the remainder after the closing quote.
A `\uXXXX` escape decodes through `Char.ofNat` (code points; the protocol
is ASCII, surrogate-pair text lies outside the modelled subset). A raw
control character (below U+0020) or an unknown escape is a parse error,
as in `JSON.parse`. -/
def parseStringBody : Nat → List Char → Option (List Char × List Char)
  | 0, _ => none
  | _ + 1, [] => none
  | fuel + 1, c :: rest =>
    if c == '"' then some ([], rest)
    else if c == '\\' then
      match rest with
      | 'u' :: h1 :: h2 :: h3 :: h4 :: rest2 =>
        match hexDigitVal h1, hexDigitVal h2, hexDigitVal h3, hexDigitVal h4 with
        | some v1, some v2, some v3, some v4 =>
          (parseStringBody fuel rest2).map
            (fun p => (Char.ofNat (v4 + 16 * (v3 + 16 * (v2 + 16 * v1))) :: p.1, p.2))
        | _, _, _, _ => none
      | e :: rest2 =>
        match unescape e with
        | some d => (parseStringBody fuel rest2).map (fun p => (d :: p.1, p.2))
        | none => none
      | [] => none
    else if c.toNat < 32 then none
    else (parseStringBody fuel rest).map (fun p => (c :: p.1, p.2))

def isDigitCh (c : Char) : Bool := '0' ≤ c && c ≤ '9'

/-- Longest leading digit run. -/
def takeDigits : List Char → List Char × List Char
  | [] => ([], [])
  | c :: rest =>
    if isDigitCh c then
      match takeDigits rest with
      | (d, r) => (c :: d, r)
    else ([], c :: rest)

/-- JSON integer part: `0` or a nonzero digit followed by digits. -/
def parseIntPart : List Char → Option (List Char × List Char)
  | [] => none
  | c :: rest =>
    if c == '0' then some ([c], rest)
    else if isDigitCh c then
      match takeDigits rest with
      | (d, r) => some (c :: d, r)
    else none

/-- JSON number token: `-? int (. digits)? ([eE][+-]? digits)?`. -/
def parseNumberTok (s : List Char) : Option (List Char × List Char) :=
  let negs : List Char × List Char :=
    match s with
    | '-' :: r => (['-'], r)
    | _ => ([], s)
  match parseIntPart negs.2 with
  | none => none
  | some (ip, r1) =>
    let fr : Option (List Char × List Char) :=
      match r1 with
      | '.' :: r2 =>
        match takeDigits r2 with
        | ([], _) => none
        | (d, r3) => some ('.' :: d, r3)
      | _ => some ([], r1)
    match fr with
    | none => none
    | some (fp, r2) =>
      let ex : Option (List Char × List Char) :=
        match r2 with
        | c :: r3 =>
          if c == 'e' || c == 'E' then
            let sgns : List Char × List Char :=
              match r3 with
              | '+' :: r5 => (['+'], r5)
              | '-' :: r5 => (['-'], r5)
              | _ => ([], r3)
            match takeDigits sgns.2 with
            | ([], _) => none
            | (d, r5) => some (c :: sgns.1 ++ d, r5)
          else some ([], c :: r3)
        | [] => some ([], [])
      match ex with
      | none => none
      | some (ep, r3) => some (negs.1 ++ ip ++ fp ++ ep, r3)

mutual

/-- Parse one JSON value (leading whitespace allowed), returning it and the
unconsumed remainder. The fuel is instantiated above the input length,
which the parser never exhausts (every recursive call first consumes at
least one input character). -/
def parseValue : Nat → List Char → Option (Json × List Char)
  | 0, _ => none
  | fuel + 1, s =>
    match skipWs s with
    | [] => none
    | c :: rest =>
      if c == '"' then
        (parseStringBody (rest.length + 1) rest).map (fun p => (Json.str p.1, p.2))
      else if c == '\x7b' then
        match skipWs rest with
        | '\x7d' :: r => some (Json.obj [], r)
        | _ => (parseMembers fuel rest).map (fun p => (Json.obj p.1, p.2))
      else if c == '[' then
        match skipWs rest with
        | ']' :: r => some (Json.arr [], r)
        | _ => (parseElems fuel rest).map (fun p => (Json.arr p.1, p.2))
      else if leadsWith trueLit (c :: rest) then
        some (Json.bool true, List.drop 4 (c :: rest))
      else if leadsWith falseLit (c :: rest) then
        some (Json.bool false, List.drop 5 (c :: rest))
      else if leadsWith nullLit (c :: rest) then
        some (Json.null, List.drop 4 (c :: rest))
      else
        (parseNumberTok (c :: rest)).map (fun p => (Json.num p.1, p.2))

/-- Parse the members of a JSON object (cursor after the opening brace, at
least one member present), consuming the closing brace. -/
def parseMembers : Nat → List Char → Option (List (List Char × Json) × List Char)
  | 0, _ => none
  | fuel + 1, s =>
    match skipWs s with
    | '"' :: rest =>
      match parseStringBody (rest.length + 1) rest with
      | none => none
      | some (key, r1) =>
        match skipWs r1 with
        | ':' :: r2 =>
          match parseValue fuel r2 with
          | none => none
          | some (v, r3) =>
            match skipWs r3 with
            | ',' :: r4 => (parseMembers fuel r4).map (fun p => ((key, v) :: p.1, p.2))
            | '\x7d' :: r4 => some ([(key, v)], r4)
            | _ => none
        | _ => none
    | _ => none

/-- Parse the elements of a JSON array (cursor after the opening bracket,
at least one element present), consuming the closing bracket. -/
def parseElems : Nat → List Char → Option (List Json × List Char)
  | 0, _ => none
  | fuel + 1, s =>
    match parseValue fuel s with
    | none => none
    | some (v, r1) =>
      match skipWs r1 with
      | ',' :: r2 => (parseElems fuel r2).map (fun p => (v :: p.1, p.2))
      | ']' :: r2 => some ([v], r2)
      | _ => none

end

/-- `JSON.parse` on a whole received chunk: exactly one JSON value, with
only whitespace around it. -/
def jsonParse (input : List Char) : Option Json :=
  match parseValue (input.length + 1) input with
  | some (v, rest) => if skipWs rest == [] then some v else none
  | none => none

/-- JS property read `v[key]` on a decoded record: `none` models
`undefined` (absent field or non-object). Later duplicate keys win. -/
def getField (v : Json) (key : List Char) : Option Json :=
  match v with
  | Json.obj fields => (fields.reverse.find? (fun p => p.1 == key)).map (fun p => p.2)
  | _ => none

/-- JS truthiness of a decoded JSON value. -/
def jsTruthy : Json → Bool
  | Json.null => false
  | Json.bool b => b
  | Json.str s => !(s == [])
  | Json.num raw => (raw.takeWhile (fun c => !(c == 'e') && !(c == 'E'))).any
      (fun c => '1' ≤ c && c ≤ '9')
  | Json.arr _ => true
  | Json.obj _ => true

/-- `x || fallback` on a possibly-absent field. -/
def jsOrElse (o : Option Json) (fallback : Json) : Json :=
  match o with
  | some v => if jsTruthy v then v else fallback
  | none => fallback

end LocalQAterm

namespace LocalQAterm

/-! ### Protocol string constants (from the sources) -/

def typeStr : String := "type"
def messageStr : String := "message"
def contentStr : String := "content"
def messageIdStr : String := "messageId"
def userIdStr : String := "userId"
def usernameStr : String := "username"
def errorStr : String := "error"
def responseStr : String := "response"
def authenticateStr : String := "authenticate"
def sendMessageStr : String := "sendMessage"
def clearContextStr : String := "clearContext"
def getStatusStr : String := "getStatus"
def connectedStr : String := "connected"
def authenticatedStr : String := "authenticated"
def statusStr : String := "status"
def contextClearedStr : String := "contextCleared"
def unknownTypeStr : String := "Unknown message type"
def invalidFormatStr : String := "Invalid message format"
def unknownStr : String := "unknown"
def activeClientsStr : String := "activeClients"
def queueLengthStr : String := "queueLength"
def currentRequestStr : String := "currentRequest"
def modelNotConnectedStr : String := "Model not connected"
def responseTimeoutStr : String := "Response timeout"

def typeKey : List Char := chars typeStr
def messageKey : List Char := chars messageStr
def contentKey : List Char := chars contentStr
def messageIdKey : List Char := chars messageIdStr
def userIdKey : List Char := chars userIdStr
def usernameKey : List Char := chars usernameStr
def connectedKey : List Char := chars connectedStr
def activeClientsKey : List Char := chars activeClientsStr
def queueLengthKey : List Char := chars queueLengthStr
def currentRequestKey : List Char := chars currentRequestStr

def errorKeyword : List Char := chars errorStr
def responseKeyword : List Char := chars responseStr
def authenticateKeyword : List Char := chars authenticateStr
def sendMessageKeyword : List Char := chars sendMessageStr
def clearContextKeyword : List Char := chars clearContextStr
def getStatusKeyword : List Char := chars getStatusStr
def connectedKeyword : List Char := chars connectedStr
def authenticatedKeyword : List Char := chars authenticatedStr
def statusKeyword : List Char := chars statusStr
def contextClearedKeyword : List Char := chars contextClearedStr

def unknownTypeMsg : List Char := chars unknownTypeStr
def invalidFormatMsg : List Char := chars invalidFormatStr
def modelNotConnectedMsg : List Char := chars modelNotConnectedStr
def responseTimeoutMsg : List Char := chars responseTimeoutStr

/-! ### Completion-marker and cleaning constants (from the sources) -/

def imStartSystemStr : String := "<|im_start|>system"
def imStartUserStr : String := "<|im_start|>user"
def imStartAssistantStr : String := "<|im_start|>assistant"
def imEndStr : String := "<|im_end|>"
def llamaChatStr : String := "llama_simple_chat"
def userColonStr : String := "User:"
def assistantColonStr : String := "Assistant:"
def gtStr : String := ">"
def sysPromptLeadStr : String := "You are an expert coding assistant"
def sysPromptTailStr : String :=
  "Always aim to be helpful, thorough, and educational in your responses."

def imStartSystem : List Char := chars imStartSystemStr
def imStartUser : List Char := chars imStartUserStr
def imStartAssistant : List Char := chars imStartAssistantStr
def imEnd : List Char := chars imEndStr
def llamaChat : List Char := chars llamaChatStr
def userColon : List Char := chars userColonStr
def assistantColon : List Char := chars assistantColonStr
def gtMark : List Char := chars gtStr
def sysPromptLead : List Char := chars sysPromptLeadStr
def sysPromptTail : List Char := chars sysPromptTailStr

/-- The completion heuristic of `sendToModel` / the `phindClient` data
handler: a freshly received chunk is terminal when it contains any of the
four markers. -/
def hasCompletionMarker (chunk : List Char) : Bool :=
  occursIn imEnd chunk || occursIn gtMark chunk ||
  occursIn userColon chunk || occursIn assistantColon chunk

/-! ### Response cleaning (modelServer.js `cleanResponse`) -/

/-- The per-line filter of the cleaning loop: a line is kept when its trim
is nonempty and it contains none of the three role/prompt markers. -/
def lineKept (line : List Char) : Bool :=
  !(trimL line == []) && !occursIn llamaChat line &&
  !occursIn userColon line && !occursIn assistantColon line

/-- The line loop of `cleanResponse`: push kept lines; once real content
has been found, a nonempty non-kept line stops the loop; blank lines are
skipped. -/
def keepUserLines : List (List Char) → Bool → List (List Char)
  | [], _ => []
  | line :: rest, found =>
    if lineKept line then line :: keepUserLines rest true
    else if found && !(trimL line == []) then []
    else keepUserLines rest found

/-- `cleanResponse` of modelServer.js: the chain of seven `replace` calls,
a trim, the keep-user-lines loop over the split lines, a join and a final
trim. -/
def cleanResponse (response : List Char) : List Char :=
  let s1 := removeLazyAll imStartSystem imEnd true response
  let s2 := removeLazyAll imStartUser imEnd true s1
  let s3 := removeLazyAll imStartAssistant imEnd true s2
  let s4 := removeLazyAll llamaChat gtMark false s3
  let s5 := removeLazyAll userColon gtMark false s4
  let s6 := removeLazyAll assistantColon gtMark false s5
  let cleaned := trimL (removeAllSub imEnd s6)
  trimL (joinLines (keepUserLines (splitOnChar '\n' cleaned) false))

/-- `cleanResponse` of phindClient.js: identical, except for one extra
anchored removal of the echoed system-prompt body before the trim. -/
def cleanResponsePC (response : List Char) : List Char :=
  let s1 := removeLazyAll imStartSystem imEnd true response
  let s2 := removeLazyAll imStartUser imEnd true s1
  let s3 := removeLazyAll imStartAssistant imEnd true s2
  let s4 := removeLazyAll llamaChat gtMark false s3
  let s5 := removeLazyAll userColon gtMark false s4
  let s6 := removeLazyAll assistantColon gtMark false s5
  let s7 := removeAllSub imEnd s6
  let cleaned := trimL (removeAnchoredLazy sysPromptLead sysPromptTail s7)
  trimL (joinLines (keepUserLines (splitOnChar '\n' cleaned) false))

end LocalQAterm

namespace LocalQAterm

/-! ### Dispatcher / queue (modelServer.js `handleSendMessage`,
`processQueue`, `sendToModel`'s connectivity guard; vllmServer.js is
line-for-line identical here) -/

/-- One queued request: the entry pushed by `handleSendMessage`, with the
client identity and the fields of the decoded `sendMessage` record that its
resolve/reject closures capture. Connection ids are modelled as naturals. -/
structure QueueEntry where
  clientId : Nat
  content : Option Json
  messageId : Option Json

/-- The queue-related fields of the server singleton. -/
structure DispatchState where
  requestQueue : List QueueEntry
  currentRequest : Option QueueEntry
  isConnected : Bool

/-- How the in-flight backend call settles. -/
inductive Outcome where
  | ok : List Char → Outcome
  | err : List Char → Outcome

/-- Externally visible dispatcher events: a backend invocation
(`sendToModel` writing the message) or a settlement delivered to an
entry's resolve/reject closure. -/
inductive DispatchObs where
  | backendSend : Option Json → DispatchObs
  | reply : QueueEntry → Outcome → DispatchObs

/-- The synchronous part of `processQueue`: shift the queue head, mark it
in-flight and start `sendToModel`. When the model is not connected,
`sendToModel` rejects at once with 'Model not connected', the catch
rejects the entry and the finally clause continues draining. -/
def drainQueue : Bool → List QueueEntry → (List QueueEntry × Option QueueEntry) × List DispatchObs
  | _, [] => (([], none), [])
  | connected, e :: rest =>
    if connected then ((rest, some e), [DispatchObs.backendSend e.content])
    else
      match drainQueue connected rest with
      | (st, obs) => (st, DispatchObs.reply e (Outcome.err modelNotConnectedMsg) :: obs)

/-- `processQueue`: no-op on an empty queue, otherwise drain. -/
def processQueue (s : DispatchState) : DispatchState × List DispatchObs :=
  match s.requestQueue with
  | [] => (s, [])
  | e :: rest =>
    match drainQueue s.isConnected (e :: rest) with
    | ((q, cur), obs) => ({ s with requestQueue := q, currentRequest := cur }, obs)

/-- The queue-side of `handleSendMessage`: push the entry; if nothing is
in flight, run `processQueue`. -/
def dispatchEnqueue (s : DispatchState) (e : QueueEntry) : DispatchState × List DispatchObs :=
  let s1 := { s with requestQueue := s.requestQueue ++ [e] }
  if s1.currentRequest.isSome then (s1, []) else processQueue s1

/-- Settlement of the in-flight entry inside `processQueue`: deliver the
outcome to the entry's resolve/reject closure, clear `currentRequest`
(finally clause) and, if more entries are queued, continue draining.
A settlement with nothing in flight cannot arise and is a no-op. -/
def dispatchSettle (s : DispatchState) (o : Outcome) : DispatchState × List DispatchObs :=
  match s.currentRequest with
  | none => (s, [])
  | some e =>
    let s1 := { s with currentRequest := none }
    if s1.requestQueue.isEmpty then (s1, [DispatchObs.reply e o])
    else
      match processQueue s1 with
      | (s2, obs) => (s2, DispatchObs.reply e o :: obs)

/-- Dispatcher events for whole-trace statements. -/
inductive DEvent where
  | enqueue : QueueEntry → DEvent
  | settle : Outcome → DEvent

def dstep (s : DispatchState) : DEvent → DispatchState × List DispatchObs
  | DEvent.enqueue e => dispatchEnqueue s e
  | DEvent.settle o => dispatchSettle s o

/-- Run a sequence of dispatcher events, accumulating observations. -/
def drun : DispatchState → List DEvent → DispatchState × List DispatchObs
  | s, [] => (s, [])
  | s, ev :: evs =>
    match dstep s ev with
    | (s1, obs1) =>
      match drun s1 evs with
      | (s2, obs2) => (s2, obs1 ++ obs2)

/-- The message texts the backend received, in order. -/
def sentContents (obs : List DispatchObs) : List (Option Json) :=
  obs.filterMap fun o =>
    match o with
    | DispatchObs.backendSend c => some c
    | DispatchObs.reply _ _ => none

/-- The message texts enqueued by `sendMessage` requests, in order. -/
def enqueuedContents (evs : List DEvent) : List (Option Json) :=
  evs.filterMap fun ev =>
    match ev with
    | DEvent.enqueue e => some e.content
    | DEvent.settle _ => none

def queueContents (q : List QueueEntry) : List (Option Json) :=
  q.map QueueEntry.content

/-- Single-flight scanner over the observation trace: a backend invocation
is legal only when nothing is in flight, a reply only when something is;
returns the final in-flight status, or `none` on a violation. -/
def scanFlight : Bool → List DispatchObs → Option Bool
  | busy, [] => some busy
  | busy, DispatchObs.backendSend _ :: rest =>
    if busy then none else scanFlight true rest
  | busy, DispatchObs.reply _ _ :: rest =>
    if busy then scanFlight false rest else none

/-- The replies delivered in an observation trace, in order. -/
def repliesOf (obs : List DispatchObs) : List (QueueEntry × Outcome) :=
  obs.filterMap fun o =>
    match o with
    | DispatchObs.backendSend _ => none
    | DispatchObs.reply e oc => some (e, oc)

end LocalQAterm

namespace LocalQAterm

/-! ### Connection manager / server state (modelServer.js) -/

/-- One registry entry, as created by `handleClientConnection`. -/
structure ClientEntry where
  userId : Option Json
  username : Option Json
  context : List Json
  currentTokenCount : Nat

/-- A fresh registry entry. -/
def freshClient : ClientEntry :=
  { userId := none, username := none, context := [], currentTokenCount := 0 }

/-- The server singleton: the client registry keyed by connection id, the
dispatcher state, and the process environment consulted by
`authenticateClient` (`process.getuid()`, `process.env.USER`). -/
structure ServerState where
  clients : List (Nat × ClientEntry)
  dispatch : DispatchState
  envUid : Json
  envUserVar : Option Json

/-- Externally visible server effects. `closeConn` models a socket
teardown; the message-handling paths never emit it. -/
inductive Action where
  | write : Nat → Json → Action
  | backendWrite : Option Json → Action
  | closeConn : Nat → Action

def concatAll : List (List Action) → List Action
  | [] => []
  | l :: ls => l ++ concatAll ls

/-- Replace the entry of a registered client. -/
def setClient (clients : List (Nat × ClientEntry)) (cid : Nat) (e : ClientEntry) :
    List (Nat × ClientEntry) :=
  clients.map fun p => if p.1 == cid then (cid, e) else p

/-- `sendToClient`: write the record to the client's socket when the id is
still registered, otherwise do nothing. -/
def sendToClient (s : ServerState) (clientId : Nat) (m : Json) : List Action :=
  match s.clients.lookup clientId with
  | some _ => [Action.write clientId m]
  | none => []

/-- `{messageId: v}` when present; `JSON.stringify` omits the field when
the source record had none. -/
def midField : Option Json → List (List Char × Json)
  | some v => [(messageIdKey, v)]
  | none => []

def errorRecord (msg : List Char) (mid : Option Json) : Json :=
  Json.obj ([(typeKey, Json.str errorKeyword), (messageKey, Json.str msg)] ++ midField mid)

def responseRecord (content : List Char) (mid : Option Json) : Json :=
  Json.obj ([(typeKey, Json.str responseKeyword), (contentKey, Json.str content)] ++ midField mid)

def unknownTypeRecord : Json := errorRecord unknownTypeMsg none

def invalidFormatRecord : Json := errorRecord invalidFormatMsg none

def authenticatedRecord (uid uname : Json) : Json :=
  Json.obj [(typeKey, Json.str authenticatedKeyword), (userIdKey, uid), (usernameKey, uname)]

def contextClearedRecord : Json :=
  Json.obj [(typeKey, Json.str contextClearedKeyword)]

def statusRecord (s : ServerState) : Json :=
  Json.obj [(typeKey, Json.str statusKeyword),
    (connectedKey, Json.bool s.dispatch.isConnected),
    (activeClientsKey, Json.num (natChars s.clients.length)),
    (queueLengthKey, Json.num (natChars s.dispatch.requestQueue.length)),
    (currentRequestKey,
      match s.dispatch.currentRequest with
      | some e => Json.num (natChars e.clientId)
      | none => Json.null)]

/-- Map a dispatcher observation to server effects: a backend invocation
writes to the model process; a settlement is delivered through the entry's
resolve/reject closure, which calls `sendToClient` against the registry as
it stands at settlement time. -/
def obsToActions (s : ServerState) : DispatchObs → List Action
  | DispatchObs.backendSend c => [Action.backendWrite c]
  | DispatchObs.reply e (Outcome.ok r) =>
    sendToClient s e.clientId (responseRecord r e.messageId)
  | DispatchObs.reply e (Outcome.err m) =>
    sendToClient s e.clientId (errorRecord m e.messageId)

/-- `authenticateClient`. -/
def authenticateClient (s : ServerState) (clientId : Nat) (message : Json) :
    ServerState × List Action :=
  match s.clients.lookup clientId with
  | none => (s, [])
  | some client =>
    let uid := jsOrElse (getField message userIdKey) s.envUid
    let uname := jsOrElse (getField message usernameKey)
      (jsOrElse s.envUserVar (Json.str (chars unknownStr)))
    let client' := { client with userId := some uid, username := some uname }
    let s' := { s with clients := setClient s.clients clientId client' }
    (s', sendToClient s' clientId (authenticatedRecord uid uname))

/-- `handleSendMessage`: push the queue entry whose closures capture the
client id and the record's `content`/`messageId`, then run `processQueue`
when idle. -/
def handleSendMessage (s : ServerState) (clientId : Nat) (message : Json) :
    ServerState × List Action :=
  match s.clients.lookup clientId with
  | none => (s, [])
  | some _ =>
    let e : QueueEntry :=
      { clientId := clientId,
        content := getField message contentKey,
        messageId := getField message messageIdKey }
    let p := dispatchEnqueue s.dispatch e
    ({ s with dispatch := p.1 }, concatAll (p.2.map (obsToActions s)))

/-- `clearClientContext`. -/
def clearClientContext (s : ServerState) (clientId : Nat) : ServerState × List Action :=
  match s.clients.lookup clientId with
  | none => (s, [])
  | some client =>
    let client' := { client with context := [], currentTokenCount := 0 }
    let s' := { s with clients := setClient s.clients clientId client' }
    (s', sendToClient s' clientId contextClearedRecord)

/-- `sendStatus`. -/
def sendStatus (s : ServerState) (clientId : Nat) : ServerState × List Action :=
  match s.clients.lookup clientId with
  | none => (s, [])
  | some _ => (s, sendToClient s clientId (statusRecord s))

/-- The record's `type` field when it is a string; the `switch` of
`handleClientMessage` compares it against the four recognised kinds, and
any other value (absent, non-string, or unmatched) reaches the default
branch. -/
def msgTypeOf (v : Json) : Option (List Char) :=
  match getField v typeKey with
  | some (Json.str t) => some t
  | _ => none

/-- Whether a decoded record names one of the four recognised kinds. -/
def recognizedKind (v : Json) : Bool :=
  match msgTypeOf v with
  | some t =>
    t == authenticateKeyword || t == sendMessageKeyword ||
    t == clearContextKeyword || t == getStatusKeyword
  | none => false

/-- `handleClientMessage`: after the registry guard, dispatch on the
record's `type` field; any unmatched or non-string type falls to the
default branch. Reading `message.type` on the decoded value `null` throws
a TypeError (member access on null); the `none` result models that throw,
which propagates to the data handler's catch. Every other decoded value
(primitives included, whose property read is merely `undefined`) reaches
the switch. -/
def handleClientMessage (s : ServerState) (clientId : Nat) (message : Json) :
    Option (ServerState × List Action) :=
  match s.clients.lookup clientId with
  | none => some (s, [])
  | some _ =>
    match message with
    | Json.null => none
    | _ =>
      match msgTypeOf message with
      | some t =>
        if t == authenticateKeyword then some (authenticateClient s clientId message)
        else if t == sendMessageKeyword then some (handleSendMessage s clientId message)
        else if t == clearContextKeyword then some (clearClientContext s clientId)
        else if t == getStatusKeyword then some (sendStatus s clientId)
        else some (s, sendToClient s clientId unknownTypeRecord)
      | none => some (s, sendToClient s clientId unknownTypeRecord)

/-- The server's per-connection data handler: `JSON.parse` the whole chunk
as received (no buffering of partial reads, no splitting on newlines); the
catch around the parse and the dispatch answers a parse failure — or a
TypeError thrown inside `handleClientMessage` — with the invalid-format
error. -/
def serverOnData (s : ServerState) (clientId : Nat) (chunk : List Char) :
    ServerState × List Action :=
  match jsonParse chunk with
  | some message =>
    match handleClientMessage s clientId message with
    | some r => r
    | none => (s, sendToClient s clientId invalidFormatRecord)
  | none => (s, sendToClient s clientId invalidFormatRecord)

/-- Settlement of the in-flight backend call at server level. -/
def serverSettle (s : ServerState) (o : Outcome) : ServerState × List Action :=
  let p := dispatchSettle s.dispatch o
  ({ s with dispatch := p.1 }, concatAll (p.2.map (obsToActions s)))

/-- The per-connection close/error handlers: remove the client from the
registry. -/
def serverOnClose (s : ServerState) (clientId : Nat) : ServerState :=
  { s with clients := s.clients.filter fun p => !(p.1 == clientId) }

end LocalQAterm

namespace LocalQAterm

/-! ### Socket client (phindSocketClient.js) -/

def alreadyWaitingStr : String := "Already waiting for a response"
def notConnectedClientStr : String := "Not connected to model server"

def alreadyWaitingMsg : List Char := chars alreadyWaitingStr
def notConnectedClientMsg : List Char := chars notConnectedClientStr

/-- The client-state fields touched by `sendMessage` and the server-message
handler. `responsePromise` is true while a response is pending (the
companion `responseResolve`/`responseReject` fields always carry the same
nullness and are folded into it). -/
structure SockState where
  isConnected : Bool
  hasSocket : Bool
  responsePromise : Bool
  currentTokenCount : Nat
  messageId : Nat
  context : List Json

/-- `16384 - 1024`, hard-coded in `wouldExceedContext`/`getContextUsage`
("Default context size - max tokens"). -/
def maxInputTokensSock : Nat := 16384 - 1024

/-- `wouldExceedContext`. -/
def wouldExceedContext (currentTokenCount : Nat) (message : List Char) : Bool :=
  decide (currentTokenCount + estimateTokens message > maxInputTokensSock)

/-- The `usagePercent` of `getContextUsage`:
`Math.round(currentTokenCount / maxInputTokens * 100)` (round half up). -/
def usagePercent (currentTokenCount : Nat) : Nat :=
  (currentTokenCount * 100 * 2 + maxInputTokensSock) / (2 * maxInputTokensSock)

/-- How a `sendMessage` call returns to its caller. -/
inductive SendOutcome where
  | notConnected
  | alreadyWaiting
  | contextExceeded : Nat → SendOutcome
  | proceeded : Nat → SendOutcome

/-- The async `sendMessage(message, options)` of phindSocketClient.js, up
to the point where the caller's promise is pending: the connectivity and
single-outstanding-request guards, the context admission check, then the
promise installation and message-id increment. The third component lists
the records written to the socket. (The executor's inner call
`this.sendMessage({type:'sendMessage',...})` resolves to this same async
method — the class's earlier socket-writing method of the same name is
shadowed by this later definition — so that call re-enters the method,
finds `responsePromise` just set, and yields a rejected, unawaited promise
without writing; no record reaches the socket on any path.) -/
def clientSendMessage (s : SockState) (message : List Char) :
    SendOutcome × SockState × List Json :=
  if !s.isConnected || !s.hasSocket then (SendOutcome.notConnected, s, [])
  else if s.responsePromise then (SendOutcome.alreadyWaiting, s, [])
  else if wouldExceedContext s.currentTokenCount message &&
      decide (usagePercent s.currentTokenCount > 90) then
    (SendOutcome.contextExceeded (usagePercent s.currentTokenCount), s, [])
  else
    let mid := s.messageId + 1
    (SendOutcome.proceeded mid, { s with responsePromise := true, messageId := mid }, [])

/-- Effects the socket client's server-message handler delivers to the
pending `sendMessage` promise. -/
inductive ClientEffect where
  | resolveResp : Option Json → ClientEffect
  | rejectResp : Option Json → ClientEffect

/-- The switch of `handleServerMessage` on one decoded record:
`response`/`error` settle the pending promise (if any) and clear it;
`contextCleared` resets the context and token count; the remaining kinds
only log. -/
def clientHandleRecord (c : SockState) (message : Json) : SockState × List ClientEffect :=
  match getField message typeKey with
  | some (Json.str t) =>
    if t == connectedKeyword then (c, [])
    else if t == authenticatedKeyword then (c, [])
    else if t == responseKeyword then
      if c.responsePromise then
        ({ c with responsePromise := false },
         [ClientEffect.resolveResp (getField message contentKey)])
      else (c, [])
    else if t == errorKeyword then
      if c.responsePromise then
        ({ c with responsePromise := false },
         [ClientEffect.rejectResp (getField message messageKey)])
      else (c, [])
    else if t == statusKeyword then (c, [])
    else if t == contextClearedKeyword then
      ({ c with context := [], currentTokenCount := 0 }, [])
    else (c, [])
  | _ => (c, [])

/-- The loop body of `handleServerMessage`: decode and dispatch each
nonempty line of the chunk in order. The single try/catch wraps the whole
loop, so the first record that fails to decode aborts the remaining
records of the same chunk. -/
def processServerRecords : SockState → List (List Char) → SockState × List ClientEffect
  | c, [] => (c, [])
  | c, m :: ms =>
    match jsonParse m with
    | none => (c, [])
    | some v =>
      match clientHandleRecord c v with
      | (c1, effs1) =>
        match processServerRecords c1 ms with
        | (c2, effs2) => (c2, effs1 ++ effs2)

/-- `handleServerMessage`: split the received chunk on newlines, keep the
lines with nonempty trim, decode and dispatch each. No partial-read
buffering: a record fragment left by the chunking is not retained for the
next data event. -/
def handleServerMessage (c : SockState) (chunk : List Char) : SockState × List ClientEffect :=
  processServerRecords c ((splitOnChar '\n' chunk).filter fun l => !(trimL l == []))

end LocalQAterm

namespace LocalQAterm

/-! ### The process-variant send operation (modelServer.js `sendToModel`)
as a per-request machine: the data handler attached to the model process
output, the completion check, and the timeout. -/

/-- The state of one `sendToModel` call: the closure's accumulation buffer
and completion flag, whether its data handler is still attached to the
process stdout, and how its promise has settled (a promise settles at most
once; later resolve/reject calls are no-ops). -/
structure SendReq where
  responseBuffer : List Char
  isComplete : Bool
  attached : Bool
  settled : Option Outcome

/-- The state right after `sendToModel` wrote the message: handler
attached, empty buffer, pending promise. -/
def sendReqInit : SendReq :=
  { responseBuffer := [], isComplete := false, attached := true, settled := none }

/-- The `dataHandler` on a stdout chunk: append to the buffer; when the
chunk contains a completion marker, mark complete, detach the handler and
resolve with the cleaned buffer. -/
def sendToModelChunk (r : SendReq) (chunk : List Char) : SendReq :=
  if r.attached then
    let buf := r.responseBuffer ++ chunk
    if hasCompletionMarker chunk then
      { responseBuffer := buf, isComplete := true, attached := false,
        settled :=
          match r.settled with
          | some o => some o
          | none => some (Outcome.ok (cleanResponse buf)) }
    else { r with responseBuffer := buf }
  else r

/-- The timeout callback of `sendToModel`: when the request is not yet
complete, reject with 'Response timeout'. It does not touch the data
handler: the listener stays attached. -/
def sendToModelTimeout (r : SendReq) : SendReq :=
  if r.isComplete then r
  else
    { r with settled :=
        match r.settled with
        | some o => some o
        | none => some (Outcome.err responseTimeoutMsg) }

/-! ### The direct-process client's request machine (phindClient.js
`sendMessage` data handler), which also performs the token-count update. -/

/-- The state of one phindClient request: the running token total and
pending-promise flag of the client, plus the per-request buffer, completion
flag and handler attachment. -/
structure PCReq where
  currentTokenCount : Nat
  responsePromise : Bool
  responseBuffer : List Char
  isComplete : Bool
  attached : Bool

/-- The `dataHandler` of phindClient.js `sendMessage` on a stdout chunk:
append to the buffer; on a completion marker, detach, clean the buffer,
add `estimateTokens(message) + estimateTokens(cleaned)` to the client's
running total, clear the pending promise and resolve with the cleaned
response (returned as the second component). -/
def pcClientChunk (message : List Char) (r : PCReq) (chunk : List Char) :
    PCReq × Option (List Char) :=
  if r.attached then
    let buf := r.responseBuffer ++ chunk
    if hasCompletionMarker chunk then
      let cleaned := cleanResponsePC buf
      ({ currentTokenCount :=
           r.currentTokenCount + estimateTokens message + estimateTokens cleaned,
         responsePromise := false,
         responseBuffer := buf, isComplete := true, attached := false },
       some cleaned)
    else ({ r with responseBuffer := buf }, none)
  else (r, none)

end LocalQAterm

namespace LocalQAterm

/-! ### Concrete fixtures used by witnesses and counterexamples -/

def hiStr : String := "hi"
def okayStr : String := "okay"
def boomStr : String := "boom"
def bogusStr : String := "bogus"

def hiChars : List Char := chars hiStr
def okayChars : List Char := chars okayStr
def boomChars : List Char := chars boomStr

/-- The all-idle dispatcher at server start. -/
def dispatchInit : DispatchState :=
  { requestQueue := [], currentRequest := none, isConnected := true }

def entryA : QueueEntry :=
  { clientId := 1, content := some (Json.str hiChars), messageId := some (Json.num ['1']) }

def entryB : QueueEntry :=
  { clientId := 1, content := some (Json.str okayChars), messageId := some (Json.num ['2']) }

def entryOrphan : QueueEntry :=
  { clientId := 2, content := some (Json.str hiChars), messageId := some (Json.num ['7']) }

/-- Two enqueues from distinct sessions followed by two settlements. -/
def evsTwo : List DEvent :=
  [DEvent.enqueue entryA, DEvent.enqueue entryOrphan,
   DEvent.settle (Outcome.ok okayChars), DEvent.settle (Outcome.ok okayChars)]

/-- A connected, idle socket-client state with zero running total. -/
def sockZero : SockState :=
  { isConnected := true, hasSocket := true, responsePromise := false,
    currentTokenCount := 0, messageId := 0, context := [] }

/-- A connected client that is already awaiting a response. -/
def sockPending : SockState :=
  { isConnected := true, hasSocket := true, responsePromise := true,
    currentTokenCount := 0, messageId := 1, context := [] }

/-- A connected, idle client whose running total sits at 100% of the
budget. -/
def sockFull : SockState :=
  { isConnected := true, hasSocket := true, responsePromise := false,
    currentTokenCount := 15360, messageId := 0, context := [] }

/-- A message of 61444 characters: its own estimate, 15361 tokens, exceeds
the 15360-token budget. -/
def hugeMessage : List Char := List.replicate 61444 'a'

def fourAs : List Char := chars (String.mk ['a', 'a', 'a', 'a'])

/-- A server with one registered, fresh client on connection id 1 and an
idle dispatcher. -/
def srvBase : ServerState :=
  { clients := [(1, freshClient)], dispatch := dispatchInit,
    envUid := Json.num (natChars 1000), envUserVar := none }

/-- A server whose in-flight entry belongs to client 1 and whose queue
holds one further entry. -/
def srvCur : ServerState :=
  { clients := [(1, freshClient)],
    dispatch := { requestQueue := [entryB], currentRequest := some entryA,
                  isConnected := true },
    envUid := Json.num (natChars 1000), envUserVar := none }

/-- A server whose in-flight entry is owned by a session (id 2) that has
already been removed from the registry. -/
def srvOrphan : ServerState :=
  { clients := [(1, freshClient)],
    dispatch := { requestQueue := [entryB], currentRequest := some entryOrphan,
                  isConnected := true },
    envUid := Json.num (natChars 1000), envUserVar := none }

/-- A server with client 1 registered at zero token count and an in-flight
entry of client 1 carrying the request "hi". -/
def srvSettling : ServerState :=
  { clients := [(1, freshClient)],
    dispatch := { requestQueue := [], currentRequest := some entryA,
                  isConnected := true },
    envUid := Json.num (natChars 1000), envUserVar := none }

/-- A fresh phindClient request machine: handler attached, empty buffer. -/
def pcReqInit : PCReq :=
  { currentTokenCount := 0, responsePromise := true,
    responseBuffer := [], isComplete := false, attached := true }

def bogusChunkStr : String := "\x7b\"type\":\"bogus\"\x7d"
def badChunkStr : String := "\x7b\"type\":"
def oneStatusChunkStr : String := "\x7b\"type\":\"getStatus\"\x7d\n"
def twoStatusChunkStr : String :=
  "\x7b\"type\":\"getStatus\"\x7d\n\x7b\"type\":\"getStatus\"\x7d\n"
def respFrag1Str : String := "\x7b\"type\":\"res"
def respFrag2Str : String := "ponse\",\"content\":\"hi\"\x7d\n"

def bogusChunk : List Char := chars bogusChunkStr
def badChunk : List Char := chars badChunkStr

/-- The decodable chunk `null`, whose dispatch throws a TypeError. -/
def nullChunk : List Char := chars nullStr
def oneStatusChunk : List Char := chars oneStatusChunkStr
def twoStatusChunk : List Char := chars twoStatusChunkStr
def respFrag1 : List Char := chars respFrag1Str
def respFrag2 : List Char := chars respFrag2Str

/-- The record `{"type":"bogus"}` as a decoded value. -/
def bogusV : Json := Json.obj [(typeKey, Json.str (chars bogusStr))]

/-- A synthetic backend output wrapping a payload in the recognised
start/end markers: a fenced system echo block before the payload and a
bare end marker after it, each on its own line. -/
def wrapMarkers (p : List Char) : List Char :=
  imStartSystem ++ imEnd ++ '\n' :: (p ++ '\n' :: imEnd)

def badPayloadStr : String := "User: hi"

/-- A payload that contains a recognised role marker. -/
def badPayload : List Char := chars badPayloadStr

def goodPayloadStr : String := "alpha one\nbeta two"

/-- A marker-free, trimmed, two-line payload. -/
def goodPayload : List Char := chars goodPayloadStr

end LocalQAterm

namespace LocalQAterm

/-! ## Claim theorems -/

/-- C9: the socket client enforces one outstanding request per session on
its own side — for every connected client state with a response still
pending (`responsePromise` set), a second `sendMessage` call throws
'Already waiting for a response' without writing anything to the socket
and without altering the client state. -/
theorem c9_already_waiting_guard (s : SockState) (message : List Char)
    (hconn : s.isConnected = true) (hsock : s.hasSocket = true)
    (hpend : s.responsePromise = true) :
    clientSendMessage s message = (SendOutcome.alreadyWaiting, s, []) := by
  simp [clientSendMessage, hconn, hsock, hpend]

theorem c9_already_waiting_guard_witness :
    clientSendMessage sockPending hiChars = (SendOutcome.alreadyWaiting, sockPending, []) :=
  c9_already_waiting_guard sockPending hiChars rfl rfl rfl

/-- C8 counterexample: in `sendToModel`, firing the timeout on a pending
request rejects it with 'Response timeout' but leaves the stdout data
listener attached — the listener set after the failure is not the set
before the send. -/
theorem c8_timeout_listener_cex :
    (sendToModelTimeout sendReqInit).settled = some (Outcome.err responseTimeoutMsg) ∧
    (sendToModelTimeout sendReqInit).attached = true := by
  exact ⟨rfl, rfl⟩

/-- C8 amended: when the timeout fires on an incomplete request, the
request is rejected with the timeout error but the stdout data listener
stays attached exactly as it was; it detaches itself only when a later
chunk containing a completion marker arrives, whose resolve is then a
no-op on the already-settled promise. -/
theorem c8_timeout_listener_amended (r : SendReq)
    (hpend : r.settled = none) (hinc : r.isComplete = false) :
    (sendToModelTimeout r).settled = some (Outcome.err responseTimeoutMsg) ∧
    (sendToModelTimeout r).attached = r.attached ∧
    (∀ chunk, hasCompletionMarker chunk = true → r.attached = true →
      (sendToModelChunk (sendToModelTimeout r) chunk).attached = false ∧
      (sendToModelChunk (sendToModelTimeout r) chunk).settled =
        some (Outcome.err responseTimeoutMsg)) := by
  refine ⟨by simp [sendToModelTimeout, hpend, hinc], by simp [sendToModelTimeout, hinc], ?_⟩
  intro chunk hm hatt
  constructor
  · simp [sendToModelChunk, sendToModelTimeout, hpend, hinc, hatt, hm]
  · simp [sendToModelChunk, sendToModelTimeout, hpend, hinc, hatt, hm]

theorem c8_timeout_listener_amended_witness :
    (sendToModelTimeout sendReqInit).attached = sendReqInit.attached ∧
    (sendToModelChunk (sendToModelTimeout sendReqInit) gtMark).attached = false :=
  ⟨(c8_timeout_listener_amended sendReqInit rfl rfl).2.1,
   ((c8_timeout_listener_amended sendReqInit rfl rfl).2.2 gtMark (by decide) rfl).1⟩

/-- C2 counterexample: a message whose own estimate (15361 tokens) exceeds
the 15360-token budget, submitted while the session's running total is
zero, is NOT rejected — `sendMessage` proceeds to dispatch it, because the
usage percentage consulted by the guard is computed from the running total
alone. -/
theorem c2_oversized_admitted_cex :
    estimateTokens hugeMessage > maxInputTokensSock ∧
    sockZero.currentTokenCount = 0 ∧
    (clientSendMessage sockZero hugeMessage).1 = SendOutcome.proceeded 1 := by
  have hdef : ∀ t : List Char, estimateTokens t = (t.length + 3) / 4 := fun _ => rfl
  have hlen : hugeMessage.length = 61444 := by
    rw [show hugeMessage = List.replicate 61444 'a' from rfl]
    exact List.length_replicate 61444 'a'
  have hest : estimateTokens hugeMessage = 15361 := by
    rw [hdef, hlen]
  have hu : ¬ usagePercent 0 > 90 := by decide
  have hcond : ¬ (wouldExceedContext 0 hugeMessage = true ∧ 90 < usagePercent 0) := by
    intro h; exact hu h.2
  refine ⟨?_, rfl, ?_⟩
  · rw [hest]; decide
  · simp [clientSendMessage, sockZero, hcond]

/-- C2 amended: `sendMessage` rejects with the context-budget error exactly
when the combined estimate exceeds the budget AND the usage percentage —
computed from the session's running total alone — exceeds 90; in
particular, when the running total is zero every message is admitted,
whatever its own size. -/
theorem c2_admission_amended (s : SockState) (message : List Char)
    (hconn : s.isConnected = true) (hsock : s.hasSocket = true)
    (hidle : s.responsePromise = false) :
    ((clientSendMessage s message).1 =
        SendOutcome.contextExceeded (usagePercent s.currentTokenCount) ↔
      wouldExceedContext s.currentTokenCount message = true ∧
        usagePercent s.currentTokenCount > 90) ∧
    (s.currentTokenCount = 0 →
      (clientSendMessage s message).1 = SendOutcome.proceeded (s.messageId + 1)) := by
  constructor
  · by_cases hw : wouldExceedContext s.currentTokenCount message = true
    · by_cases hu : usagePercent s.currentTokenCount > 90
      · simp [clientSendMessage, hconn, hsock, hidle, hw, hu]
      · simp [clientSendMessage, hconn, hsock, hidle, hw, hu]
    · simp [clientSendMessage, hconn, hsock, hidle, hw]
  · intro h0
    have hu : ¬ usagePercent s.currentTokenCount > 90 := by
      rw [h0]; decide
    simp [clientSendMessage, hconn, hsock, hidle, hu]

theorem c2_admission_amended_witness :
    wouldExceedContext sockFull.currentTokenCount fourAs = true ∧
    usagePercent sockFull.currentTokenCount > 90 ∧
    (clientSendMessage sockFull fourAs).1 =
      SendOutcome.contextExceeded (usagePercent sockFull.currentTokenCount) ∧
    (clientSendMessage sockZero fourAs).1 = SendOutcome.proceeded 1 := by
  refine ⟨by decide, by decide, ?_, ?_⟩
  · exact (c2_admission_amended sockFull fourAs rfl rfl rfl).1.mpr ⟨by decide, by decide⟩
  · exact (c2_admission_amended sockZero fourAs rfl rfl rfl).2 rfl

end LocalQAterm

namespace LocalQAterm

/-- C3 counterexample: the socket server settles a successful exchange
(request "hi", response "okay") for the registered session without
touching its running token total — it stays 0, while the claim requires
0 + estimate("hi") + estimate("okay") = 2. -/
theorem c3_server_total_unchanged_cex :
    (((serverSettle srvSettling (Outcome.ok okayChars)).1.clients.lookup 1).map
        ClientEntry.currentTokenCount) = some 0 ∧
    estimateTokens hiChars + estimateTokens okayChars = 2 ∧
    (0 : Nat) ≠ 2 := by
  exact ⟨rfl, rfl, by decide⟩

/-- C3 amended: settlement on the socket server leaves every session's
registry entry (in particular its running token total) unchanged; the
update total' = total + estimate(request) + estimate(cleaned response) is
performed only by the direct-process client (phindClient.js) on its own
state, inside its data handler at completion. -/
theorem c3_token_update_amended :
    (∀ (s : ServerState) (o : Outcome), (serverSettle s o).1.clients = s.clients) ∧
    (∀ (message : List Char) (r : PCReq) (chunk : List Char),
      r.attached = true → hasCompletionMarker chunk = true →
      (pcClientChunk message r chunk).1.currentTokenCount =
        r.currentTokenCount + estimateTokens message +
          estimateTokens (cleanResponsePC (r.responseBuffer ++ chunk))) := by
  constructor
  · intro s o; rfl
  · intro message r chunk hatt hm
    simp [pcClientChunk, hatt, hm]

theorem c3_token_update_amended_witness :
    (serverSettle srvSettling (Outcome.ok okayChars)).1.clients = srvSettling.clients ∧
    (pcClientChunk hiChars pcReqInit gtMark).1.currentTokenCount =
      pcReqInit.currentTokenCount + estimateTokens hiChars +
        estimateTokens (cleanResponsePC (pcReqInit.responseBuffer ++ gtMark)) :=
  ⟨c3_token_update_amended.1 srvSettling (Outcome.ok okayChars),
   c3_token_update_amended.2 hiChars pcReqInit gtMark rfl (by decide)⟩

/-- C5 (framing): the wire protocol is one newline-terminated record per
message, and each single record decodes on its own; yet the server's data
handler decodes the chunk as received — a chunk carrying two well-formed
newline-terminated records is answered with one 'Invalid message format'
error and neither record is processed — and the socket client, which does
split on newlines, keeps no partial-read buffer — a record split across
two reads decodes in neither half even though the halves concatenate to a
well-formed record. -/
theorem c5_receivers_no_framing :
    (∃ v, jsonParse oneStatusChunk = some v) ∧
    serverOnData srvBase 1 twoStatusChunk = (srvBase, [Action.write 1 invalidFormatRecord]) ∧
    (∃ v, jsonParse (respFrag1 ++ respFrag2) = some v) ∧
    handleServerMessage sockPending respFrag1 = (sockPending, []) ∧
    handleServerMessage sockPending respFrag2 = (sockPending, []) := by
  exact ⟨⟨Json.obj [(typeKey, Json.str getStatusKeyword)], rfl⟩, rfl,
    ⟨Json.obj [(typeKey, Json.str responseKeyword), (contentKey, Json.str hiChars)], rfl⟩,
    rfl, rfl⟩

/-- C6: for a registered client, a decoded record whose kind is not one of
the four recognised ones is answered with exactly
`{"type":"error","message":"Unknown message type"}`, and a chunk that
fails to decode is answered with exactly
`{"type":"error","message":"Invalid message format"}`; in both cases the
server state (and so the registry, the client included) is unchanged and
the single emitted action is that write — the connection is not closed. -/
theorem c6_unknown_and_invalid_replies (s : ServerState) (clientId : Nat)
    (e : ClientEntry) (hreg : s.clients.lookup clientId = some e) :
    (∀ chunk v, jsonParse chunk = some v → v ≠ Json.null → recognizedKind v = false →
      serverOnData s clientId chunk = (s, [Action.write clientId unknownTypeRecord])) ∧
    (∀ chunk, jsonParse chunk = none →
      serverOnData s clientId chunk = (s, [Action.write clientId invalidFormatRecord])) ∧
    (∀ chunk, jsonParse chunk = some Json.null →
      serverOnData s clientId chunk = (s, [Action.write clientId invalidFormatRecord])) := by
  refine ⟨?_, ?_, ?_⟩
  · intro chunk v hp hnull hr
    have hh : handleClientMessage s clientId v =
        some (s, [Action.write clientId unknownTypeRecord]) := by
      have hobj : ∀ fields, v = Json.obj fields →
          handleClientMessage s clientId v =
            some (s, [Action.write clientId unknownTypeRecord]) := by
        intro fields hv
        subst hv
        unfold handleClientMessage
        rw [hreg]
        cases ht : msgTypeOf (Json.obj fields) with
        | none => simp [sendToClient, hreg]
        | some t =>
          have hr' := hr
          unfold recognizedKind at hr'
          rw [ht] at hr'
          simp only [Bool.or_eq_false_iff] at hr'
          simp [hr'.1.1.1, hr'.1.1.2, hr'.1.2, hr'.2, sendToClient, hreg]
      cases v with
      | null => exact absurd rfl hnull
      | obj fields => exact hobj fields rfl
      | str a =>
        unfold handleClientMessage
        rw [hreg]
        simp [msgTypeOf, getField, sendToClient, hreg]
      | num a =>
        unfold handleClientMessage
        rw [hreg]
        simp [msgTypeOf, getField, sendToClient, hreg]
      | bool a =>
        unfold handleClientMessage
        rw [hreg]
        simp [msgTypeOf, getField, sendToClient, hreg]
      | arr a =>
        unfold handleClientMessage
        rw [hreg]
        simp [msgTypeOf, getField, sendToClient, hreg]
    simp [serverOnData, hp, hh]
  · intro chunk hp
    simp [serverOnData, hp, sendToClient, hreg]
  · intro chunk hp
    simp [serverOnData, hp, handleClientMessage, hreg, sendToClient]

theorem c6_unknown_and_invalid_replies_witness :
    serverOnData srvBase 1 bogusChunk = (srvBase, [Action.write 1 unknownTypeRecord]) ∧
    serverOnData srvBase 1 badChunk = (srvBase, [Action.write 1 invalidFormatRecord]) ∧
    serverOnData srvBase 1 nullChunk = (srvBase, [Action.write 1 invalidFormatRecord]) := by
  have h := c6_unknown_and_invalid_replies srvBase 1 freshClient rfl
  exact ⟨h.1 bogusChunk bogusV rfl (fun hv => Json.noConfusion hv) rfl,
    h.2.1 badChunk rfl, h.2.2 nullChunk rfl⟩

/-- C7: when the in-flight entry fails (backend timeout or error), only
that entry is settled — with an error reply carrying its messageId — the
in-flight marker is cleared and, if further entries are queued, the head
of the queue is dispatched to the backend; the remaining queue is exactly
the tail. -/
theorem c7_failure_continues_queue (s : ServerState) (e : QueueEntry)
    (m : List Char) (entry : ClientEntry)
    (hcur : s.dispatch.currentRequest = some e)
    (hconn : s.dispatch.isConnected = true)
    (hreg : s.clients.lookup e.clientId = some entry) :
    (serverSettle s (Outcome.err m)).1.clients = s.clients ∧
    (serverSettle s (Outcome.err m)).1.dispatch.currentRequest =
      s.dispatch.requestQueue.head? ∧
    (serverSettle s (Outcome.err m)).1.dispatch.requestQueue =
      s.dispatch.requestQueue.tail ∧
    (serverSettle s (Outcome.err m)).2 =
      Action.write e.clientId (errorRecord m e.messageId) ::
        (match s.dispatch.requestQueue with
         | [] => ([] : List Action)
         | e2 :: _ => [Action.backendWrite e2.content]) := by
  cases hq : s.dispatch.requestQueue with
  | nil =>
    refine ⟨rfl, ?_, ?_, ?_⟩ <;>
      simp [serverSettle, dispatchSettle, hcur, hq, processQueue, drainQueue,
        obsToActions, sendToClient, hreg, concatAll]
  | cons e2 rest =>
    refine ⟨rfl, ?_, ?_, ?_⟩ <;>
      simp [serverSettle, dispatchSettle, hcur, hq, hconn, processQueue, drainQueue,
        obsToActions, sendToClient, hreg, concatAll]

theorem c7_failure_continues_queue_witness :
    (serverSettle srvCur (Outcome.err boomChars)).1.dispatch.currentRequest = some entryB ∧
    (serverSettle srvCur (Outcome.err boomChars)).1.dispatch.requestQueue = [] ∧
    (serverSettle srvCur (Outcome.err boomChars)).2 =
      [Action.write 1 (errorRecord boomChars entryA.messageId),
       Action.backendWrite entryB.content] := by
  have h := c7_failure_continues_queue srvCur entryA boomChars freshClient rfl rfl rfl
  exact ⟨h.2.1.trans rfl, h.2.2.1.trans rfl, h.2.2.2.trans rfl⟩

/-- C10: delivering a message to a client id that is no longer registered
is a silent no-op — `sendToClient` emits nothing (and, being total,
throws nothing) — so settling an in-flight entry whose owner has
disconnected leaves the registry untouched, writes to no connection at
all (in particular, no other session receives the orphaned response), and
still dispatches the next queued entry. -/
theorem c10_orphan_reply_silent (s : ServerState) (clientId : Nat) (m : Json)
    (habs : s.clients.lookup clientId = none) :
    sendToClient s clientId m = [] ∧
    (∀ (e : QueueEntry) (o : Outcome), s.dispatch.currentRequest = some e →
      e.clientId = clientId → s.dispatch.isConnected = true →
      (serverSettle s o).1.clients = s.clients ∧
      (∀ a ∈ (serverSettle s o).2, ∀ cid msg, a ≠ Action.write cid msg) ∧
      (serverSettle s o).1.dispatch.currentRequest = s.dispatch.requestQueue.head?) := by
  constructor
  · simp [sendToClient, habs]
  · intro e o hcur hcid hconn
    refine ⟨rfl, ?_, ?_⟩
    · cases hq : s.dispatch.requestQueue with
      | nil =>
        cases o <;>
          simp [serverSettle, dispatchSettle, hcur, hq, obsToActions,
            sendToClient, hcid, habs, concatAll]
      | cons e2 rest =>
        cases o <;>
          simp [serverSettle, dispatchSettle, hcur, hq, hconn, processQueue,
            drainQueue, obsToActions, sendToClient, hcid, habs, concatAll]
    · cases hq : s.dispatch.requestQueue with
      | nil =>
        simp [serverSettle, dispatchSettle, hcur, hq]
      | cons e2 rest =>
        simp [serverSettle, dispatchSettle, hcur, hq, hconn, processQueue, drainQueue]

theorem c10_orphan_reply_silent_witness :
    sendToClient srvOrphan 2 contextClearedRecord = [] ∧
    (serverSettle srvOrphan (Outcome.ok okayChars)).1.clients = srvOrphan.clients ∧
    (serverSettle srvOrphan (Outcome.ok okayChars)).2 =
      [Action.backendWrite entryB.content] ∧
    (serverSettle srvOrphan (Outcome.ok okayChars)).1.dispatch.currentRequest =
      some entryB := by
  have h := c10_orphan_reply_silent srvOrphan 2 contextClearedRecord rfl
  have h2 := h.2 entryOrphan (Outcome.ok okayChars) rfl rfl rfl
  exact ⟨h.1, h2.1, rfl, h2.2.2.trans rfl⟩

end LocalQAterm

namespace LocalQAterm

/-- The message an event enqueues, if any. -/
def enqOf : DEvent → List (Option Json)
  | DEvent.enqueue e => [e.content]
  | DEvent.settle _ => []

theorem enqueuedContents_cons (ev : DEvent) (evs : List DEvent) :
    enqueuedContents (ev :: evs) = enqOf ev ++ enqueuedContents evs := by
  cases ev <;> simp [enqueuedContents, enqOf]

theorem sentContents_append (xs ys : List DispatchObs) :
    sentContents (xs ++ ys) = sentContents xs ++ sentContents ys := by
  simp [sentContents, List.filterMap_append]

theorem queueContents_append (xs ys : List QueueEntry) :
    queueContents (xs ++ ys) = queueContents xs ++ queueContents ys := by
  simp [queueContents]

theorem scanFlight_append (xs : List DispatchObs) :
    ∀ (b : Bool) (ys : List DispatchObs),
    scanFlight b (xs ++ ys) = (scanFlight b xs).bind fun b' => scanFlight b' ys := by
  induction xs with
  | nil => intro b ys; rfl
  | cons x rest ih =>
    intro b ys
    cases x with
    | backendSend c => cases b <;> simp [scanFlight, ih]
    | reply e o => cases b <;> simp [scanFlight, ih]

/-- One dispatcher step preserves connectivity, trades queue contents for
backend invocations in arrival order, and keeps the trace single-flight. -/
theorem dstep_queue_inv (s : DispatchState) (ev : DEvent)
    (hconn : s.isConnected = true) :
    (dstep s ev).1.isConnected = true ∧
    sentContents (dstep s ev).2 ++ queueContents (dstep s ev).1.requestQueue =
      queueContents s.requestQueue ++ enqOf ev ∧
    scanFlight s.currentRequest.isSome (dstep s ev).2 =
      some (dstep s ev).1.currentRequest.isSome := by
  cases ev with
  | enqueue e =>
    cases hc : s.currentRequest with
    | some e0 =>
      simp [dstep, dispatchEnqueue, hc, hconn, sentContents, queueContents, enqOf, scanFlight]
    | none =>
      cases hq : s.requestQueue ++ [e] with
      | nil => exact absurd hq (by simp)
      | cons h0 t0 =>
        have hqc : queueContents (s.requestQueue ++ [e]) =
            queueContents s.requestQueue ++ [e.content] := by
          simp [queueContents]
        rw [hq] at hqc
        refine ⟨?_, ?_, ?_⟩ <;>
          simp [dstep, dispatchEnqueue, hc, processQueue, hq, hconn, drainQueue,
            sentContents, enqOf, scanFlight]
        rw [← hqc]
        simp [queueContents]
  | settle o =>
    cases hc : s.currentRequest with
    | none =>
      simp [dstep, dispatchSettle, hc, hconn, sentContents, queueContents, enqOf, scanFlight]
    | some e0 =>
      cases hq : s.requestQueue with
      | nil =>
        simp [dstep, dispatchSettle, hc, hconn, hq, sentContents, queueContents, enqOf,
          scanFlight, List.isEmpty]
      | cons e2 rest =>
        simp [dstep, dispatchSettle, hc, hq, hconn, processQueue, drainQueue,
          sentContents, queueContents, enqOf, scanFlight, List.isEmpty]

/-- Trace invariant of the dispatcher, by induction over the events. -/
theorem drun_queue_inv (evs : List DEvent) :
    ∀ (s : DispatchState), s.isConnected = true →
    (drun s evs).1.isConnected = true ∧
    sentContents (drun s evs).2 ++ queueContents (drun s evs).1.requestQueue =
      queueContents s.requestQueue ++ enqueuedContents evs ∧
    scanFlight s.currentRequest.isSome (drun s evs).2 =
      some (drun s evs).1.currentRequest.isSome := by
  induction evs with
  | nil =>
    intro s h
    exact ⟨h, by simp [drun, sentContents, enqueuedContents], by simp [drun, scanFlight]⟩
  | cons ev evs ih =>
    intro s hconn
    obtain ⟨h1, h2, h3⟩ := dstep_queue_inv s ev hconn
    obtain ⟨g1, g2, g3⟩ := ih (dstep s ev).1 h1
    have hd : drun s (ev :: evs) =
        ((drun (dstep s ev).1 evs).1, (dstep s ev).2 ++ (drun (dstep s ev).1 evs).2) := rfl
    refine ⟨by rw [hd]; exact g1, ?_, ?_⟩
    · rw [hd]
      simp only [sentContents_append, List.append_assoc]
      rw [g2, ← List.append_assoc, h2, List.append_assoc, ← enqueuedContents_cons]
    · rw [hd]
      simp only [scanFlight_append, h3, Option.bind_some]
      exact g3

/-- C1: from the idle server start, for every sequence of dispatcher
events (any interleaving of `sendMessage` enqueues from any sessions with
settlements of the in-flight backend call): the backend invocations are
the enqueued messages in arrival order with the still-queued ones
appended (so invocations are a prefix of arrivals, each drained entry the
head of the FIFO queue); the observation trace is single-flight (a new
`sendToModel` starts only when nothing is in flight, so no two
invocations overlap); and once the queue has drained (nothing in flight,
empty queue) the backend has received exactly the N enqueued messages, in
enqueue order. -/
theorem c1_single_flight_fifo (evs : List DEvent) :
    sentContents (drun dispatchInit evs).2 ++
        queueContents (drun dispatchInit evs).1.requestQueue =
      enqueuedContents evs ∧
    scanFlight false (drun dispatchInit evs).2 =
      some (drun dispatchInit evs).1.currentRequest.isSome ∧
    ((drun dispatchInit evs).1.currentRequest = none →
      (drun dispatchInit evs).1.requestQueue = [] →
      sentContents (drun dispatchInit evs).2 = enqueuedContents evs) := by
  obtain ⟨-, h2, h3⟩ := drun_queue_inv evs dispatchInit rfl
  refine ⟨?_, h3, ?_⟩
  · simpa [dispatchInit, queueContents] using h2
  · intro hcur hq
    have := h2
    rw [hq] at this
    simpa [dispatchInit, queueContents] using this

theorem c1_single_flight_fifo_witness :
    sentContents (drun dispatchInit evsTwo).2 = enqueuedContents evsTwo ∧
    scanFlight false (drun dispatchInit evsTwo).2 = some false := by
  have h := c1_single_flight_fifo evsTwo
  exact ⟨h.2.2 rfl rfl, h.2.1.trans rfl⟩

end LocalQAterm

namespace LocalQAterm

/-! ### String lemmas supporting the cleaning theorem -/

theorem occursIn_nil (a : List Char) (ha : a ≠ []) : occursIn a [] = false := by
  cases a with
  | nil => exact absurd rfl ha
  | cons a0 as => rfl

theorem leadsWith_append_nl (x : List Char) :
    ∀ (a y : List Char), a ≠ [] → '\n' ∉ a →
    leadsWith a (x ++ '\n' :: y) = leadsWith a x := by
  induction x with
  | nil =>
    intro a y ha hn
    cases a with
    | nil => exact absurd rfl ha
    | cons a0 as =>
      have h0 : (a0 == '\n') = false := by
        rw [beq_eq_false_iff_ne]
        intro h
        exact hn (h ▸ List.mem_cons_self a0 as)
      simp [leadsWith, h0]
  | cons c x' ih =>
    intro a y ha hn
    cases a with
    | nil => simp [leadsWith]
    | cons a0 as =>
      cases as with
      | nil => simp [leadsWith]
      | cons b bs =>
        have hbs : (b :: bs : List Char) ≠ [] := by simp
        have hnn : '\n' ∉ (b :: bs : List Char) := fun h => hn (List.mem_cons_of_mem a0 h)
        simp [leadsWith, ih (b :: bs) y hbs hnn]

theorem occursIn_append_nl (x : List Char) :
    ∀ (a y : List Char), a ≠ [] → '\n' ∉ a →
    occursIn a (x ++ '\n' :: y) = (occursIn a x || occursIn a y) := by
  induction x with
  | nil =>
    intro a y ha hn
    have h0 : leadsWith a ('\n' :: y) = false := by
      have h := leadsWith_append_nl [] a y ha hn
      rw [List.nil_append] at h
      rw [h]
      cases a with
      | nil => exact absurd rfl ha
      | cons a0 as => rfl
    have h1 : leadsWith a [] = false := by
      cases a with
      | nil => exact absurd rfl ha
      | cons a0 as => rfl
    simp [occursIn, h0, h1]
  | cons c x' ih =>
    intro a y ha hn
    have hl : leadsWith a (c :: (x' ++ '\n' :: y)) = leadsWith a (c :: x') := by
      have h := leadsWith_append_nl (c :: x') a y ha hn
      simpa using h
    calc occursIn a ((c :: x') ++ '\n' :: y)
        = (leadsWith a (c :: (x' ++ '\n' :: y)) || occursIn a (x' ++ '\n' :: y)) := by
          simp [occursIn]
      _ = (leadsWith a (c :: x') || (occursIn a x' || occursIn a y)) := by
          rw [hl, ih a y ha hn]
      _ = ((leadsWith a (c :: x') || occursIn a x') || occursIn a y) := by
          rw [Bool.or_assoc]
      _ = (occursIn a (c :: x') || occursIn a y) := by simp [occursIn]

theorem removeLazyAllF_id (a b : List Char) (d : Bool) :
    ∀ (fuel : Nat) (s : List Char), occursIn a s = false →
    removeLazyAllF fuel a b d s = s := by
  intro fuel
  induction fuel with
  | zero => intro s h; rfl
  | succ n ih =>
    intro s h
    cases s with
    | nil => rfl
    | cons c rest =>
      have h' : leadsWith a (c :: rest) = false ∧ occursIn a rest = false := by
        simpa [occursIn, Bool.or_eq_false_iff] using h
      simp [removeLazyAllF, h'.1, ih rest h'.2]

theorem removeAllSubF_append_nl (a : List Char) (ha : a ≠ []) (hn : '\n' ∉ a) :
    ∀ (x : List Char) (f : Nat) (y : List Char), occursIn a x = false →
    removeAllSubF (x.length + f) a (x ++ '\n' :: y) =
      x ++ removeAllSubF f a ('\n' :: y) := by
  intro x
  induction x with
  | nil => intro f y h; simp
  | cons c x' ih =>
    intro f y h
    have h' : leadsWith a (c :: x') = false ∧ occursIn a x' = false := by
      simpa [occursIn, Bool.or_eq_false_iff] using h
    have hl : leadsWith a (c :: (x' ++ '\n' :: y)) = false := by
      have e := leadsWith_append_nl (c :: x') a y ha hn
      simp only [List.cons_append] at e
      rw [e]
      exact h'.1
    have hfuel : (c :: x').length + f = (x'.length + f) + 1 := by
      simp [List.length_cons]
      omega
    rw [hfuel]
    simp only [List.cons_append]
    simp [removeAllSubF, hl, ih f y h'.2]

end LocalQAterm

namespace LocalQAterm

theorem trimL_cons_nl (s : List Char) : trimL ('\n' :: s) = trimL s := by
  have hnl : isWsChar '\n' = true := rfl
  simp [trimL, List.dropWhile_cons, hnl]

theorem trimL_append_nl (s : List Char) : trimL (s ++ ['\n']) = trimL s := by
  induction s with
  | nil => rfl
  | cons c s' ih =>
    by_cases hw : isWsChar c = true
    · have e1 : trimL ((c :: s') ++ ['\n']) = trimL (s' ++ ['\n']) := by
        simp [trimL, List.dropWhile_cons, hw]
      have e2 : trimL (c :: s') = trimL s' := by
        simp [trimL, List.dropWhile_cons, hw]
      rw [e1, e2, ih]
    · have hw' : isWsChar c = false := by simpa using hw
      have hnl : isWsChar '\n' = true := rfl
      simp [trimL, List.dropWhile_cons, hw', hnl, List.reverse_append]

theorem splitOnChar_ne_nil (sep : Char) (s : List Char) : splitOnChar sep s ≠ [] := by
  cases s with
  | nil => simp [splitOnChar]
  | cons c rest =>
    by_cases hc : (c == sep) = true
    · simp [splitOnChar, hc]
    · cases hs : splitOnChar sep rest with
      | nil => simp [splitOnChar, hc, hs]
      | cons l ls => simp [splitOnChar, hc, hs]

theorem joinLines_splitOnChar (s : List Char) :
    joinLines (splitOnChar '\n' s) = s := by
  induction s with
  | nil => rfl
  | cons c rest ih =>
    by_cases hc : (c == '\n') = true
    · have hceq : c = '\n' := by simpa [beq_iff_eq] using hc
      cases hs : splitOnChar '\n' rest with
      | nil => exact absurd hs (splitOnChar_ne_nil _ _)
      | cons l ls =>
        rw [hs] at ih
        subst hceq
        simp [splitOnChar, hs, joinLines, ih]
    · have hc' : (c == '\n') = false := by simpa using hc
      cases hs : splitOnChar '\n' rest with
      | nil => exact absurd hs (splitOnChar_ne_nil _ _)
      | cons l ls =>
        rw [hs] at ih
        cases ls with
        | nil =>
          simp [joinLines] at ih
          simp [splitOnChar, hc', hs, joinLines, ih]
        | cons l2 ls2 =>
          simp [joinLines] at ih
          simp [splitOnChar, hc', hs, joinLines, ih]

theorem keepUserLines_all (lines : List (List Char)) :
    ∀ (found : Bool), (∀ l ∈ lines, lineKept l = true) →
    keepUserLines lines found = lines := by
  induction lines with
  | nil => intro f h; rfl
  | cons l ls ih =>
    intro f h
    have hl := h l (List.mem_cons_self _ _)
    simp [keepUserLines, hl, ih true (fun x hx => h x (List.mem_cons_of_mem _ hx))]

theorem occursIn_of_mem_split (a : List Char) (ha : a ≠ []) (hn : '\n' ∉ a) :
    ∀ (s : List Char), occursIn a s = false →
    ∀ l ∈ splitOnChar '\n' s, occursIn a l = false := by
  intro s
  induction s with
  | nil =>
    intro h l hl
    simp [splitOnChar] at hl
    subst hl
    exact occursIn_nil a ha
  | cons c rest ih =>
    intro h l hl
    have h' : leadsWith a (c :: rest) = false ∧ occursIn a rest = false := by
      simpa [occursIn, Bool.or_eq_false_iff] using h
    by_cases hc : (c == '\n') = true
    · simp [splitOnChar, hc] at hl
      rcases hl with hl | hl
      · subst hl; exact occursIn_nil a ha
      · exact ih h'.2 l hl
    · have hc' : (c == '\n') = false := by simpa using hc
      cases hs : splitOnChar '\n' rest with
      | nil => exact absurd hs (splitOnChar_ne_nil _ _)
      | cons l0 ls =>
        simp [splitOnChar, hc', hs] at hl
        rcases hl with hl | hl
        · subst hl
          have hl0 : occursIn a l0 = false :=
            ih h'.2 l0 (by rw [hs]; exact List.mem_cons_self _ _)
          have hlw : leadsWith a (c :: l0) = false := by
            have hj := joinLines_splitOnChar rest
            rw [hs] at hj
            cases ls with
            | nil =>
              have hrest : rest = l0 := by simpa [joinLines] using hj.symm
              rw [← hrest]
              exact h'.1
            | cons l1 ls' =>
              have hrest : rest = l0 ++ '\n' :: joinLines (l1 :: ls') := by
                simpa [joinLines] using hj.symm
              have e := leadsWith_append_nl (c :: l0) a (joinLines (l1 :: ls')) ha hn
              simp only [List.cons_append] at e
              rw [← e, ← hrest]
              exact h'.1
          simp [occursIn, hlw, hl0]
        · exact ih h'.2 l (by rw [hs]; exact List.mem_cons_of_mem _ hl)

end LocalQAterm

namespace LocalQAterm

theorem leadsWith_self_append (a : List Char) :
    ∀ z, leadsWith a (a ++ z) = true := by
  induction a with
  | nil => intro z; rfl
  | cons c cs ih => intro z; simp [leadsWith, ih]

theorem findStopIdx_of_leads (b : List Char) (d : Bool) (s : List Char)
    (hb : b ≠ []) (hs : leadsWith b s = true) : findStopIdx b d s = some 0 := by
  cases s with
  | nil =>
    cases b with
    | nil => exact absurd rfl hb
    | cons b0 bs => simp [leadsWith] at hs
  | cons c rest => simp [findStopIdx, hs]

theorem removeLazyAllF_step_match (fuel : Nat) (a b : List Char) (d : Bool)
    (s : List Char) (j : Nat) (ha : a ≠ [])
    (hs : leadsWith a s = true)
    (hj : findStopIdx b d (List.drop a.length s) = some j) :
    removeLazyAllF (fuel + 1) a b d s =
      removeLazyAllF fuel a b d (List.drop (j + b.length) (List.drop a.length s)) := by
  cases s with
  | nil =>
    cases a with
    | nil => exact absurd rfl ha
    | cons a0 as => simp [leadsWith] at hs
  | cons c rest => simp [removeLazyAllF, hs, hj]

/-- Absence of a pattern in the stripped wrap remainder
`'\n' :: (p ++ '\n' :: imEnd)`. -/
theorem occursIn_wrapRemainder (a p : List Char) (ha : a ≠ []) (hn : '\n' ∉ a)
    (hp : occursIn a p = false) (he : occursIn a imEnd = false) :
    occursIn a ('\n' :: (p ++ '\n' :: imEnd)) = false := by
  have e1 := occursIn_append_nl [] a (p ++ '\n' :: imEnd) ha hn
  have e2 := occursIn_append_nl p a imEnd ha hn
  simp only [List.nil_append] at e1
  rw [e1, e2, occursIn_nil a ha, hp, he]
  rfl

/-- The first `replace` of `cleanResponse` erases exactly the fenced
system echo block of the wrap. -/
theorem stage1_wrap (p : List Char) (h1 : occursIn imStartSystem p = false) :
    removeLazyAll imStartSystem imEnd true (wrapMarkers p) =
      '\n' :: (p ++ '\n' :: imEnd) := by
  have hs : leadsWith imStartSystem (wrapMarkers p) = true := by
    have h := leadsWith_self_append imStartSystem (imEnd ++ '\n' :: (p ++ '\n' :: imEnd))
    simpa [wrapMarkers] using h
  have hdrop1 : List.drop imStartSystem.length (wrapMarkers p) =
      imEnd ++ '\n' :: (p ++ '\n' :: imEnd) := by
    rw [wrapMarkers]
    exact List.drop_left _ _
  have hstop : findStopIdx imEnd true (List.drop imStartSystem.length (wrapMarkers p)) =
      some 0 := by
    rw [hdrop1]
    exact findStopIdx_of_leads imEnd true _ (by decide) (leadsWith_self_append imEnd _)
  have hocc : occursIn imStartSystem ('\n' :: (p ++ '\n' :: imEnd)) = false :=
    occursIn_wrapRemainder imStartSystem p (by decide) (by decide) h1 (by decide)
  calc removeLazyAll imStartSystem imEnd true (wrapMarkers p)
      = removeLazyAllF ((wrapMarkers p).length + 1) imStartSystem imEnd true
          (wrapMarkers p) := rfl
    _ = removeLazyAllF ((wrapMarkers p).length) imStartSystem imEnd true
          (List.drop (0 + imEnd.length) (List.drop imStartSystem.length (wrapMarkers p))) :=
        removeLazyAllF_step_match _ _ _ _ _ 0 (by decide) hs hstop
    _ = removeLazyAllF ((wrapMarkers p).length) imStartSystem imEnd true
          ('\n' :: (p ++ '\n' :: imEnd)) := by
        rw [hdrop1, Nat.zero_add, List.drop_left]
    _ = '\n' :: (p ++ '\n' :: imEnd) := removeLazyAllF_id _ _ _ _ _ hocc

/-- The seventh `replace` erases exactly the trailing bare end marker. -/
theorem stage7_wrap (p : List Char) (hp : occursIn imEnd p = false) :
    removeAllSub imEnd ('\n' :: (p ++ '\n' :: imEnd)) = '\n' :: (p ++ ['\n']) := by
  have h0 : leadsWith imEnd ('\n' :: p) = false := by
    have h := leadsWith_append_nl [] imEnd p (by decide) (by decide)
    simp only [List.nil_append] at h
    rw [h]
    rfl
  have hx : occursIn imEnd ('\n' :: p) = false := by
    simp [occursIn, h0, hp]
  have hfuel : ('\n' :: (p ++ '\n' :: imEnd)).length + 1 = ('\n' :: p).length + 12 := by
    simp [List.length_cons, List.length_append]
    rfl
  have hassoc : '\n' :: (p ++ '\n' :: imEnd) = ('\n' :: p) ++ '\n' :: imEnd := by simp
  have hconcrete : removeAllSubF 12 imEnd ('\n' :: imEnd) = ['\n'] := by decide
  calc removeAllSub imEnd ('\n' :: (p ++ '\n' :: imEnd))
      = removeAllSubF (('\n' :: (p ++ '\n' :: imEnd)).length + 1) imEnd
          ('\n' :: (p ++ '\n' :: imEnd)) := rfl
    _ = removeAllSubF (('\n' :: p).length + 12) imEnd (('\n' :: p) ++ '\n' :: imEnd) := by
        rw [hfuel, hassoc]
    _ = ('\n' :: p) ++ removeAllSubF 12 imEnd ('\n' :: imEnd) :=
        removeAllSubF_append_nl imEnd (by decide) (by decide) ('\n' :: p) 12 imEnd hx
    _ = '\n' :: (p ++ ['\n']) := by rw [hconcrete]; simp

end LocalQAterm

namespace LocalQAterm

/-- C4 counterexample: the cleaner does not return every payload intact —
wrapping the payload "User: hi" in the recognised markers and cleaning
yields a different string (the payload line is discarded as a role-marker
line). -/
theorem c4_clean_wrap_cex : cleanResponse (wrapMarkers badPayload) ≠ badPayload := by
  decide

/-- C4 amended: cleaning the synthetic wrapped output returns exactly the
payload for every payload that contains none of the recognised marker
substrings (`<|im_start|>system`, `<|im_start|>user`,
`<|im_start|>assistant`, `<|im_end|>`, `llama_simple_chat`, `User:`,
`Assistant:`), carries no leading or trailing whitespace, and has no
blank lines. -/
theorem c4_clean_wrap_amended (p : List Char)
    (h1 : occursIn imStartSystem p = false)
    (h2 : occursIn imStartUser p = false)
    (h3 : occursIn imStartAssistant p = false)
    (h4 : occursIn llamaChat p = false)
    (h5 : occursIn userColon p = false)
    (h6 : occursIn assistantColon p = false)
    (h7 : occursIn imEnd p = false)
    (htrim : trimL p = p)
    (hlines : ∀ l ∈ splitOnChar '\n' p, trimL l ≠ []) :
    cleanResponse (wrapMarkers p) = p := by
  have hv := stage1_wrap p h1
  have e2 : removeLazyAll imStartUser imEnd true ('\n' :: (p ++ '\n' :: imEnd)) =
      '\n' :: (p ++ '\n' :: imEnd) :=
    removeLazyAllF_id _ _ _ _ _
      (occursIn_wrapRemainder imStartUser p (by decide) (by decide) h2 (by decide))
  have e3 : removeLazyAll imStartAssistant imEnd true ('\n' :: (p ++ '\n' :: imEnd)) =
      '\n' :: (p ++ '\n' :: imEnd) :=
    removeLazyAllF_id _ _ _ _ _
      (occursIn_wrapRemainder imStartAssistant p (by decide) (by decide) h3 (by decide))
  have e4 : removeLazyAll llamaChat gtMark false ('\n' :: (p ++ '\n' :: imEnd)) =
      '\n' :: (p ++ '\n' :: imEnd) :=
    removeLazyAllF_id _ _ _ _ _
      (occursIn_wrapRemainder llamaChat p (by decide) (by decide) h4 (by decide))
  have e5 : removeLazyAll userColon gtMark false ('\n' :: (p ++ '\n' :: imEnd)) =
      '\n' :: (p ++ '\n' :: imEnd) :=
    removeLazyAllF_id _ _ _ _ _
      (occursIn_wrapRemainder userColon p (by decide) (by decide) h5 (by decide))
  have e6 : removeLazyAll assistantColon gtMark false ('\n' :: (p ++ '\n' :: imEnd)) =
      '\n' :: (p ++ '\n' :: imEnd) :=
    removeLazyAllF_id _ _ _ _ _
      (occursIn_wrapRemainder assistantColon p (by decide) (by decide) h6 (by decide))
  have e7 : removeAllSub imEnd ('\n' :: (p ++ '\n' :: imEnd)) = '\n' :: (p ++ ['\n']) :=
    stage7_wrap p h7
  have etrim : trimL ('\n' :: (p ++ ['\n'])) = p := by
    rw [trimL_cons_nl, trimL_append_nl, htrim]
  have hkept : ∀ l ∈ splitOnChar '\n' p, lineKept l = true := by
    intro l hl
    have k4 := occursIn_of_mem_split llamaChat (by decide) (by decide) p h4 l hl
    have k5 := occursIn_of_mem_split userColon (by decide) (by decide) p h5 l hl
    have k6 := occursIn_of_mem_split assistantColon (by decide) (by decide) p h6 l hl
    have kt := hlines l hl
    simp [lineKept, k4, k5, k6, kt]
  have efilter : keepUserLines (splitOnChar '\n' p) false = splitOnChar '\n' p :=
    keepUserLines_all _ false hkept
  have hflat : cleanResponse (wrapMarkers p) =
      trimL (joinLines (keepUserLines (splitOnChar '\n'
        (trimL (removeAllSub imEnd
          (removeLazyAll assistantColon gtMark false
            (removeLazyAll userColon gtMark false
              (removeLazyAll llamaChat gtMark false
                (removeLazyAll imStartAssistant imEnd true
                  (removeLazyAll imStartUser imEnd true
                    (removeLazyAll imStartSystem imEnd true (wrapMarkers p)))))))))) false)) :=
    rfl
  rw [hflat, hv, e2, e3, e4, e5, e6, e7, etrim, efilter, joinLines_splitOnChar, htrim]

theorem c4_clean_wrap_amended_witness :
    occursIn userColon goodPayload = false ∧
    trimL goodPayload = goodPayload ∧
    cleanResponse (wrapMarkers goodPayload) = goodPayload := by
  refine ⟨by decide, by decide, ?_⟩
  exact c4_clean_wrap_amended goodPayload (by decide) (by decide) (by decide) (by decide)
    (by decide) (by decide) (by decide) (by decide) (by decide)

end LocalQAterm
